import Mathlib

/-!
Verification development for the Bagheera classification-evaluation library.

The Rust sources (`src/utils.rs`, `src/classification.rs`, `src/errors.rs`)
are embedded shallowly:

* floating-point values (`f32`/`f64`) are modelled by `FloatVal`: either NaN
  or a finite value carried as a rational number (rounding plays no role in
  any property considered here; signed infinities are folded into the finite
  carrier since only `is_nan` distinguishes values in the code paths
  modelled);
* `std::collections::HashMap<String, Vec<T2>>` is modelled by an
  association list with unique keys (`hmInsert` replaces the entry of an
  existing key in place, exactly as `HashMap::insert` does observably);
* `std::collections::BinaryHeap` is modelled by a list of pending entries;
  `popMax` removes a maximal element by value.  The order in which the std
  heap pops *equal* values is unspecified, so the model fixes one choice
  (the earliest pushed maximal element); every property proved below is
  independent of that choice;
* Rust panics / process aborts (`unwrap` on `None`/`Err`, `panic!`-style
  macros) are modelled by an outer `Option`, `none` meaning the call never
  returns;
* fallible functions returning `Result<_, io::Error>` become
  `Except Err _`, with `Err` a structured rendering of exactly the
  `io::Error` values the sources construct (kind plus the arguments of the
  format string; `Err.message` rebuilds the literal message text).
-/

namespace Bagheera

/-- Model of an `f32`/`f64` value: NaN, or a non-NaN value carried as a
rational number. -/
inductive FloatVal where
  | nan : FloatVal
  | fin : ℚ → FloatVal
deriving DecidableEq, Repr

/-- Model of `f32::is_nan` / `f64::is_nan`. -/
def FloatVal.is_nan : FloatVal → Bool
  | .nan => true
  | .fin _ => false

/-- The rational carried by a non-NaN value (junk value `0` on NaN; only
used on values known to be non-NaN). -/
def FloatVal.toRat : FloatVal → ℚ
  | .nan => 0
  | .fin q => q

/-- `utils.rs`: `pub struct NoNaN<T: num_traits::Float>(T);` — holds a
non-NaN floating-point number, here represented by its rational value. -/
structure NoNaN where
  val : ℚ
deriving DecidableEq, Repr

/-- `utils.rs` `NoNaN::new`: `if value.is_nan() { None } else { Some(NoNaN(value)) }`. -/
def NoNaN.new (value : FloatVal) : Option NoNaN :=
  if value.is_nan then none else some ⟨value.toRat⟩

/-- `utils.rs` `NoNaN::value`: returns the wrapped number. -/
def NoNaN.value (w : NoNaN) : ℚ :=
  w.val

/-- The `io::ErrorKind` values used by the sources. -/
inductive ErrKind where
  | notFound
  | invalidInput
  | invalidData
deriving DecidableEq, Repr

/-- Structured model of the `io::Error` values the sources construct:
each constructor records the arguments that `format!` interpolates. -/
inductive Err where
  /-- `errors.rs` `image_not_present_error(image_name)` -/
  | imageNotPresent (image_name : String)
  /-- `errors.rs` `topk_incorrect_k(k, v_length)` -/
  | topkIncorrectK (k v_length : Nat)
  /-- `classification.rs` `from_csv_file`, empty-line error (carries the
  0-based line index and the csv filename) -/
  | emptyLine (line_num : Nat) (filename : String)
  /-- `classification.rs` `from_csv_file`, wrong-class-count error (0-based
  line index, csv filename, number of parsed scores, expected count) -/
  | wrongClassCount (line_num : Nat) (filename : String) (got expected : Nat)
deriving DecidableEq, Repr

deriving instance DecidableEq for Except

/-- The `io::ErrorKind` each source error is constructed with. -/
def Err.kind : Err → ErrKind
  | .imageNotPresent _ => .notFound
  | .topkIncorrectK _ _ => .invalidInput
  | .emptyLine _ _ => .invalidData
  | .wrongClassCount _ _ _ _ => .invalidData

/-- The literal message text the sources put into the `io::Error`. -/
def Err.message : Err → String
  | .imageNotPresent n => "The image " ++ n ++ " was not found."
  | .topkIncorrectK k len =>
      "In Top-K analysis of a vector v, K <= v.len().Here K = " ++ toString k ++
      " and v.len() = " ++ toString len ++ "."
  | .emptyLine i f =>
      "Line " ++ toString i ++ " of " ++ f ++ " is empty. This is an error."
  | .wrongClassCount i f got expected =>
      "Line " ++ toString i ++ " of " ++ f ++ " contains " ++ toString got ++
      " classes when num_classes is specified as " ++ toString expected

/-- The 0-based line index carried by a bulk-load error, if any. -/
def Err.lineNum : Err → Option Nat
  | .emptyLine i _ => some i
  | .wrongClassCount i _ _ _ => some i
  | _ => none

/-- The source identifier (csv filename) carried by a bulk-load error, if any. -/
def Err.sourceName : Err → Option String
  | .emptyLine _ f => some f
  | .wrongClassCount _ f _ _ => some f
  | _ => none

/-- `iter().enumerate()` starting at a given index. -/
def enumerateFrom : Nat → List FloatVal → List (Nat × FloatVal)
  | _, [] => []
  | i, x :: rest => (i, x) :: enumerateFrom (i + 1) rest

/-- One pop of the max-priority-queue of `IndexedTuple<NoNaN<_>>` entries
(`utils.rs`): removes a maximal element by value (`IndexedTuple` compares
by value only).  The std heap's choice among equal values is unspecified;
the model removes the earliest pushed maximal element. -/
def popMax : List (Nat × ℚ) → Option ((Nat × ℚ) × List (Nat × ℚ))
  | [] => none
  | p :: rest =>
    match popMax rest with
    | none => some (p, [])
    | some (q, rest') => if q.2 > p.2 then some (q, p :: rest') else some (p, rest)

/-- The pop loop of `top_k`: `for _ in 0..k { topk_indices.push(bheap.pop().unwrap().index()) }`.
`none` models the `unwrap` panicking on an empty heap. -/
def popK : List (Nat × ℚ) → Nat → Option (List Nat)
  | _, 0 => some []
  | l, k + 1 =>
    match popMax l with
    | none => none
    | some (m, r) => (popK r k).map (fun t => m.1 :: t)

/-- The push loop of the float `top_k`: every `(index, value)` is wrapped
through `NoNaN::new(*value).unwrap()` and pushed; `none` models the
`unwrap` panicking on a NaN element. -/
def wrapAll : List (Nat × FloatVal) → Option (List (Nat × ℚ))
  | [] => some []
  | (i, x) :: rest =>
    match NoNaN.new x with
    | none => none
    | some w => (wrapAll rest).map (fun t => (i, w.value) :: t)

/-- `utils.rs` `impl_topk_float` — `TopK::top_k` for `Vec<f32>` / `Vec<f64>`:
reject `k > len` with `topk_incorrect_k`, push all indexed entries through
`NoNaN`, then pop `k` indices.  The outer `Option` models process aborts. -/
def topkFloat (v : List FloatVal) (k : Nat) : Option (Except Err (List Nat)) :=
  if k > v.length then some (.error (.topkIncorrectK k v.length))
  else
    match wrapAll (enumerateFrom 0 v) with
    | none => none
    | some pairs => (popK pairs k).map .ok

/-- Association-list model of `HashMap::insert`: replace the entry of an
existing key in place, otherwise append the new entry. -/
def hmInsert : List (String × List FloatVal) → String → List FloatVal →
    List (String × List FloatVal)
  | [], key, v => [(key, v)]
  | p :: rest, key, v =>
    if p.1 = key then (key, v) :: rest else p :: hmInsert rest key v

/-- Association-list model of `HashMap` indexing / `get`. -/
def hmGet (m : List (String × List FloatVal)) (key : String) : Option (List FloatVal) :=
  (m.find? (fun p => p.1 = key)).map (fun p => p.2)

/-- Association-list model of `HashMap::contains_key`. -/
def hmContains (m : List (String × List FloatVal)) (key : String) : Bool :=
  m.any (fun p => p.1 = key)

/-- `classification.rs`: `ClassificationOutput<T1, T2>` — the per-image
confidence-vector store (`T1` index type modelled by `Nat`, `T2` float type
by `FloatVal`). -/
structure ClassificationOutput where
  num_classes : Nat
  data : List (String × List FloatVal)
deriving DecidableEq, Repr

namespace ClassificationOutput

/-- `ClassificationOutput::new`. -/
def new (num_classes : Nat) : ClassificationOutput :=
  { num_classes := num_classes, data := [] }

/-- `ClassificationOutput::add`: insert when the vector length equals
`num_classes`, otherwise return `errors::image_not_present_error(image_name)`
and leave the store untouched.  Returns the post-state together with the
`Result` value. -/
def add (co : ClassificationOutput) (image_name : String)
    (confidence_vector : List FloatVal) : ClassificationOutput × Except Err Unit :=
  if confidence_vector.length = co.num_classes then
    ({ co with data := hmInsert co.data image_name confidence_vector }, .ok ())
  else
    (co, .error (.imageNotPresent image_name))

/-- `ClassificationOutput::num_images`. -/
def num_images (co : ClassificationOutput) : Nat :=
  co.data.length

/-- `ClassificationOutput::image_is_present`. -/
def image_is_present (co : ClassificationOutput) (image_name : String) : Bool :=
  hmContains co.data image_name

/-- `ClassificationOutput::is_empty`. -/
def is_empty (co : ClassificationOutput) : Bool :=
  co.data.isEmpty

/-- `ClassificationOutput::confidence_for_image`: error for an absent key,
otherwise the stored vector (the `self.data[imagename]` indexing always
finds the key because of the guard). -/
def confidence_for_image (co : ClassificationOutput) (imagename : String) :
    Except Err (List FloatVal) :=
  if !(co.image_is_present imagename) then .error (.imageNotPresent imagename)
  else .ok ((hmGet co.data imagename).getD [])

/-- `ClassificationOutput::topk_for_image`: error for an absent key,
otherwise `confidence_for_image(imagename).unwrap().top_k(k).unwrap()`.
Both `unwrap`s can panic — `none` models the abort (in particular the
second `unwrap` panics whenever `top_k` returns an `Err`). -/
def topk_for_image (co : ClassificationOutput) (imagename : String) (k : Nat) :
    Option (Except Err (List Nat)) :=
  if !(co.image_is_present imagename) then some (.error (.imageNotPresent imagename))
  else
    match co.confidence_for_image imagename with
    | .error _ => none
    | .ok v =>
      match topkFloat v k with
      | none => none
      | some (.error _) => none
      | some (.ok idxs) => some (.ok idxs)

end ClassificationOutput

/-- Decimal digits to a natural number. -/
def parseDigits (l : List Char) : Nat :=
  l.foldl (fun a c => a * 10 + (c.toNat - 48)) 0

/-- Exponent tail of the `fast_float` grammar: optional sign then at least
one digit, consuming the whole remainder. -/
def fastFloatParseExp (mantissa : ℚ) (t : List Char) : Option ℚ :=
  let signAndRest : Int × List Char :=
    match t with
    | '+' :: r => (1, r)
    | '-' :: r => (-1, r)
    | r => (1, r)
  let eds := signAndRest.2.takeWhile Char.isDigit
  let rest := signAndRest.2.dropWhile Char.isDigit
  if eds.isEmpty ∨ !rest.isEmpty then none
  else some (mantissa * (10 : ℚ) ^ (signAndRest.1 * (parseDigits eds : Int)))

/-- Model of the external `fast_float::parse` (the whole token must match
the numeric grammar: optional sign, decimal digits with an optional
fractional part and an optional exponent; surrounding whitespace is *not*
accepted, and nothing may be left unconsumed).  The special forms
`inf`/`nan` of the external parser are omitted: no property below depends
on them. -/
def fastFloatParse (s : String) : Option ℚ :=
  let cs := s.toList
  let signAndRest : ℚ × List Char :=
    match cs with
    | '+' :: t => (1, t)
    | '-' :: t => (-1, t)
    | t => (1, t)
  let sgn := signAndRest.1
  let cs₁ := signAndRest.2
  let intPart := cs₁.takeWhile Char.isDigit
  let afterInt := cs₁.dropWhile Char.isDigit
  let fracAndRest : List Char × List Char :=
    match afterInt with
    | '.' :: t => (t.takeWhile Char.isDigit, t.dropWhile Char.isDigit)
    | t => ([], t)
  let fracPart := fracAndRest.1
  let afterFrac :=
    match afterInt with
    | '.' :: _ => fracAndRest.2
    | t => t
  if intPart.isEmpty ∧ fracPart.isEmpty then none
  else
    let mantissa : ℚ :=
      sgn * ((parseDigits intPart : ℚ) +
        (parseDigits fracPart : ℚ) / ((10 : ℚ) ^ fracPart.length))
    match afterFrac with
    | [] => some mantissa
    | 'e' :: t => fastFloatParseExp mantissa t
    | 'E' :: t => fastFloatParseExp mantissa t
    | _ => none

/-- Model of `str::trim` (drop whitespace from both ends). -/
def strTrim (s : String) : String :=
  ⟨((s.toList.dropWhile Char.isWhitespace).reverse.dropWhile Char.isWhitespace).reverse⟩

/-- Model of `str::split(",")`. -/
def splitCommaAux : List Char → List Char → List String
  | [], acc => [⟨acc.reverse⟩]
  | c :: rest, acc =>
    if c = ',' then ⟨acc.reverse⟩ :: splitCommaAux rest [] else splitCommaAux rest (c :: acc)

/-- Model of `str::split(",")` on a string: the comma-separated fields. -/
def splitComma (s : String) : List String :=
  splitCommaAux s.toList []

/-- The per-line body of `from_csv_file`'s read loop, iterated over the
remaining lines.  `lines` are the lines the external reader yields,
`line_num` the running 0-based `enumerate` index, `data` the accumulated
map.  Per line: trim the whole line, reject an empty result with the
empty-line error, split on commas, take field 0 as the image name (the
map entry is reset to an empty vector, as `insert` does), parse every
remaining token with `fast_float::parse(token).unwrap()` (`none` models
the panic on an unparseable token), then reject a parsed-score count
different from `num_classes` with the wrong-class-count error. -/
def fromCsvGo (csv_filename : String) (num_classes : Nat) :
    List String → Nat → List (String × List FloatVal) →
    Option (Except Err (List (String × List FloatVal)))
  | [], _, data => some (.ok data)
  | line :: rest, line_num, data =>
    let line_trimmed := strTrim line
    if line_trimmed.isEmpty then some (.error (.emptyLine line_num csv_filename))
    else
      let tokens := splitComma line_trimmed
      let imagename := tokens.headD ""
      match (tokens.drop 1).mapM fastFloatParse with
      | none => none
      | some scores =>
        let data := hmInsert data imagename (scores.map FloatVal.fin)
        if scores.length ≠ num_classes then
          some (.error (.wrongClassCount line_num csv_filename scores.length num_classes))
        else fromCsvGo csv_filename num_classes rest (line_num + 1) data

/-- `ClassificationOutput::from_csv_file`.  Opening the file and splitting
it into lines is the external reader's job (the initial line-counting pass
only sizes a capacity and has no observable effect); the model receives
the list of lines.  The outer `Option` models process aborts (unparseable
tokens). -/
def ClassificationOutput.from_csv_file (lines : List String) (csv_filename : String)
    (num_classes : Nat) : Option (Except Err ClassificationOutput) :=
  (fromCsvGo csv_filename num_classes lines 0 []).map
    (fun r => r.map (fun d => { num_classes := num_classes, data := d }))

/-- `utils.rs` `ToOneHot::convert` for a single unsigned integer: panic
(modelled by `none`) when the class index is not below `num_classes`,
otherwise a false-vector of length `num_classes` with position `self` set. -/
def convertOne (self : Nat) (num_classes : Nat) : Option (List Bool) :=
  if self ≥ num_classes then none
  else some ((List.replicate num_classes false).set self true)

/-- The loop of `ToOneHot::convert` for `Vec<T1>`: set each listed index,
panicking (modelled by `none`) at the first index not below `num_classes`. -/
def convertManyGo (num_classes : Nat) : List Nat → List Bool → Option (List Bool)
  | [], one_hot => some one_hot
  | category :: rest, one_hot =>
    if category ≥ num_classes then none
    else convertManyGo num_classes rest (one_hot.set category true)

/-- `utils.rs` `ToOneHot::convert` for `Vec<T1>`. -/
def convertMany (self : List Nat) (num_classes : Nat) : Option (List Bool) :=
  convertManyGo num_classes self (List.replicate num_classes false)

/-! ### Lemmas about the priority-queue model -/

theorem popMax_eq_none_iff (l : List (Nat × ℚ)) : popMax l = none ↔ l = [] := by
  cases l with
  | nil => simp [popMax]
  | cons p rest =>
    simp only [popMax]
    cases h : popMax rest with
    | none => simp
    | some x => obtain ⟨q, r⟩ := x; dsimp only; split <;> simp

theorem popMax_perm : ∀ (l : List (Nat × ℚ)) (m : Nat × ℚ) (r : List (Nat × ℚ)),
    popMax l = some (m, r) → l.Perm (m :: r) := by
  intro l
  induction l with
  | nil => intro m r h; simp [popMax] at h
  | cons p rest ih =>
    intro m r h
    simp only [popMax] at h
    cases hrest : popMax rest with
    | none =>
      rw [hrest] at h
      simp only [Option.some.injEq, Prod.mk.injEq] at h
      obtain ⟨hm, hr⟩ := h
      subst hm; subst hr
      have hnil : rest = [] := (popMax_eq_none_iff rest).1 hrest
      subst hnil
      exact List.Perm.refl _
    | some x =>
      obtain ⟨q, r₀⟩ := x
      rw [hrest] at h
      dsimp only at h
      have hperm := ih q r₀ hrest
      by_cases hgt : q.2 > p.2
      · rw [if_pos hgt] at h
        simp only [Option.some.injEq, Prod.mk.injEq] at h
        obtain ⟨hm, hr⟩ := h
        subst hm; subst hr
        exact (hperm.cons p).trans (List.Perm.swap q p r₀)
      · rw [if_neg hgt] at h
        simp only [Option.some.injEq, Prod.mk.injEq] at h
        obtain ⟨hm, hr⟩ := h
        subst hm; subst hr
        exact List.Perm.refl _

theorem popMax_ge : ∀ (l : List (Nat × ℚ)) (m : Nat × ℚ) (r : List (Nat × ℚ)),
    popMax l = some (m, r) → ∀ x ∈ r, x.2 ≤ m.2 := by
  intro l
  induction l with
  | nil => intro m r h; simp [popMax] at h
  | cons p rest ih =>
    intro m r h
    simp only [popMax] at h
    cases hrest : popMax rest with
    | none =>
      rw [hrest] at h
      simp only [Option.some.injEq, Prod.mk.injEq] at h
      obtain ⟨hm, hr⟩ := h
      subst hm; subst hr
      intro x hx
      simp at hx
    | some y =>
      obtain ⟨q, r₀⟩ := y
      rw [hrest] at h
      dsimp only at h
      have hq := ih q r₀ hrest
      have hqmem := popMax_perm rest q r₀ hrest
      by_cases hgt : q.2 > p.2
      · rw [if_pos hgt] at h
        simp only [Option.some.injEq, Prod.mk.injEq] at h
        obtain ⟨hm, hr⟩ := h
        subst hm; subst hr
        intro x hx
        rcases List.mem_cons.1 hx with hxp | hxr
        · subst hxp; exact le_of_lt hgt
        · exact hq x hxr
      · rw [if_neg hgt] at h
        simp only [Option.some.injEq, Prod.mk.injEq] at h
        obtain ⟨hm, hr⟩ := h
        subst hm; subst hr
        intro x hx
        have hx2 : x ∈ q :: r₀ := hqmem.mem_iff.1 hx
        rcases List.mem_cons.1 hx2 with hxq | hxr
        · subst hxq; exact le_of_not_lt hgt
        · exact le_trans (hq x hxr) (le_of_not_lt hgt)

/-- Full behaviour of the pop loop when `k` does not exceed the heap size:
it succeeds, returning the indices of `k` entries (`pairs`) that form a
value-descending sequence, each of whose values dominates every entry left
in the heap (`rem`); `pairs ++ rem` is a permutation of the heap. -/
theorem popK_spec : ∀ (k : Nat) (l : List (Nat × ℚ)), k ≤ l.length →
    ∃ pairs rem, popK l k = some (pairs.map Prod.fst) ∧
      pairs.length = k ∧
      l.Perm (pairs ++ rem) ∧
      pairs.Pairwise (fun a b => b.2 ≤ a.2) ∧
      ∀ a ∈ pairs, ∀ b ∈ rem, b.2 ≤ a.2 := by
  intro k
  induction k with
  | zero =>
    intro l _
    exact ⟨[], l, rfl, rfl, by simp, List.Pairwise.nil, by simp⟩
  | succ k ih =>
    intro l hk
    have hne : l ≠ [] := by
      intro h
      subst h
      simp at hk
    obtain ⟨x, hx⟩ : ∃ x, popMax l = some x := by
      cases h : popMax l with
      | none => exact absurd ((popMax_eq_none_iff l).1 h) hne
      | some x => exact ⟨x, rfl⟩
    obtain ⟨m, r⟩ := x
    have hperm := popMax_perm l m r hx
    have hge := popMax_ge l m r hx
    have hlen : r.length + 1 = l.length := by
      have hl := hperm.length_eq
      simp only [List.length_cons] at hl
      omega
    have hk₀ : k ≤ r.length := by omega
    obtain ⟨pairs, rem, hpop, hplen, hperm₂, hpw, hsep⟩ := ih r hk₀
    refine ⟨m :: pairs, rem, ?_, ?_, ?_, ?_, ?_⟩
    · simp [popK, hx, hpop]
    · simp [hplen]
    · exact hperm.trans (hperm₂.cons m)
    · refine List.Pairwise.cons ?_ hpw
      intro b hb
      exact hge b (hperm₂.mem_iff.2 (List.mem_append_left _ hb))
    · intro a ha b hb
      rcases List.mem_cons.1 ha with h | h
      · subst h
        exact hge b (hperm₂.mem_iff.2 (List.mem_append_right _ hb))
      · exact hsep a h b hb

/-! ### Lemmas about the push loop and enumeration -/

theorem wrapAll_of_no_nan : ∀ (l : List (Nat × FloatVal)),
    (∀ p ∈ l, (p.2).is_nan = false) →
    wrapAll l = some (l.map (fun p => (p.1, p.2.toRat))) := by
  intro l
  induction l with
  | nil => intro _; rfl
  | cons p rest ih =>
    intro h
    obtain ⟨i, x⟩ := p
    have hx : x.is_nan = false := h (i, x) (List.mem_cons_self _ _)
    simp only [wrapAll, NoNaN.new, hx, Bool.false_eq_true, if_false,
      ih (fun q hq => h q (List.mem_cons_of_mem _ hq)), Option.map_some]
    rfl

theorem wrapAll_of_nan : ∀ (l : List (Nat × FloatVal)) (p : Nat × FloatVal),
    p ∈ l → (p.2).is_nan = true → wrapAll l = none := by
  intro l
  induction l with
  | nil => intro p hp; simp at hp
  | cons q rest ih =>
    intro p hp hnan
    obtain ⟨i, x⟩ := q
    rcases List.mem_cons.1 hp with h | h
    · subst h
      simp [wrapAll, NoNaN.new, hnan]
    · cases hn : NoNaN.new x with
      | none => simp [wrapAll, hn]
      | some w => simp [wrapAll, hn, ih p h hnan]

theorem enumerateFrom_length : ∀ (i : Nat) (l : List FloatVal),
    (enumerateFrom i l).length = l.length := by
  intro i l
  induction l generalizing i with
  | nil => rfl
  | cons x rest ih => simp [enumerateFrom, ih]

theorem mem_enumerateFrom : ∀ (l : List FloatVal) (i : Nat) (p : Nat × FloatVal),
    p ∈ enumerateFrom i l →
    i ≤ p.1 ∧ p.1 < i + l.length ∧ l.getD (p.1 - i) .nan = p.2 := by
  intro l
  induction l with
  | nil => intro i p hp; simp [enumerateFrom] at hp
  | cons x rest ih =>
    intro i p hp
    rcases List.mem_cons.1 hp with h | h
    · subst h
      refine ⟨le_refl i, by simp only [List.length_cons]; omega, ?_⟩
      simp [List.getD]
    · obtain ⟨h₁, h₂, h₃⟩ := ih (i + 1) p h
      refine ⟨by omega, by simp only [List.length_cons]; omega, ?_⟩
      have hsub : p.1 - i = (p.1 - (i + 1)) + 1 := by omega
      rw [hsub]
      simpa [List.getD] using h₃

theorem enumerateFrom_mem_of_lt : ∀ (l : List FloatVal) (i j : Nat), j < l.length →
    (i + j, l.getD j .nan) ∈ enumerateFrom i l := by
  intro l
  induction l with
  | nil => intro i j hj; simp at hj
  | cons x rest ih =>
    intro i j hj
    cases j with
    | zero => simp [enumerateFrom, List.getD]
    | succ j =>
      have hj₀ : j < rest.length := by simpa using hj
      have := ih (i + 1) j hj₀
      simp only [enumerateFrom, List.mem_cons]
      right
      have harith : i + (j + 1) = (i + 1) + j := by omega
      rw [harith]
      simpa [List.getD] using this

theorem mem_snd_enumerateFrom : ∀ (l : List FloatVal) (i : Nat) (x : FloatVal),
    x ∈ l → ∃ p ∈ enumerateFrom i l, p.2 = x := by
  intro l
  induction l with
  | nil => intro i x hx; simp at hx
  | cons y rest ih =>
    intro i x hx
    rcases List.mem_cons.1 hx with h | h
    · subst h
      exact ⟨(i, x), List.mem_cons_self _ _, rfl⟩
    · obtain ⟨p, hp, hpx⟩ := ih (i + 1) x h
      exact ⟨p, List.mem_cons_of_mem _ hp, hpx⟩

theorem enumerateFrom_fst_nodup : ∀ (l : List FloatVal) (i : Nat),
    ((enumerateFrom i l).map Prod.fst).Nodup := by
  intro l
  induction l with
  | nil => intro i; simp [enumerateFrom]
  | cons x rest ih =>
    intro i
    simp only [enumerateFrom, List.map_cons, List.nodup_cons]
    refine ⟨?_, ih (i + 1)⟩
    intro hmem
    obtain ⟨p, hp, hpi⟩ := List.mem_map.1 hmem
    have := (mem_enumerateFrom rest (i + 1) p hp).1
    omega

theorem getD_mem_of_lt : ∀ (l : List FloatVal) (n : Nat), n < l.length →
    l.getD n FloatVal.nan ∈ l := by
  intro l
  induction l with
  | nil => intro n h; simp at h
  | cons x rest ih =>
    intro n h
    cases n with
    | zero => simp [List.getD]
    | succ n =>
      have hn : n < rest.length := by simpa using h
      simpa [List.getD] using List.mem_cons_of_mem x (by simpa [List.getD] using ih n hn)

theorem pairwise_transfer (f : Nat → ℚ) : ∀ (l : List (Nat × ℚ)),
    (∀ a ∈ l, a.2 = f a.1) → l.Pairwise (fun a b => b.2 ≤ a.2) →
    (l.map Prod.fst).Pairwise (fun i j => f j ≤ f i) := by
  intro l
  induction l with
  | nil => intro _ _; simp
  | cons a rest ih =>
    intro hmem hpw
    rw [List.pairwise_cons] at hpw
    simp only [List.map_cons]
    rw [List.pairwise_cons]
    constructor
    · intro j hj
      obtain ⟨b, hb, hbj⟩ := List.mem_map.1 hj
      subst hbj
      have h₁ := hpw.1 b hb
      have ha := hmem a (List.mem_cons_self _ _)
      have hbm := hmem b (List.mem_cons_of_mem _ hb)
      rw [← ha, ← hbm]
      exact h₁
    · exact ih (fun x hx => hmem x (List.mem_cons_of_mem _ hx)) hpw.2

/-- Behaviour of the float `top_k` on a NaN-free vector with `k` within
bounds: it returns `Ok` with exactly `k` distinct indices, all below the
vector length, ordered descending by the value they index, and every
returned index's value dominates every non-returned index's value. -/
theorem topkFloat_spec (v : List FloatVal) (k : Nat)
    (hn : ∀ x ∈ v, x.is_nan = false) (hk : k ≤ v.length) :
    ∃ out, topkFloat v k = some (.ok out) ∧
      out.length = k ∧ out.Nodup ∧ (∀ i ∈ out, i < v.length) ∧
      out.Pairwise (fun i j => (v.getD j .nan).toRat ≤ (v.getD i .nan).toRat) ∧
      ∀ i ∈ out, ∀ j, j < v.length → j ∉ out →
        (v.getD j .nan).toRat ≤ (v.getD i .nan).toRat := by
  have hno : ∀ p ∈ enumerateFrom 0 v, (p.2).is_nan = false := by
    intro p hp
    have h₃ := (mem_enumerateFrom v 0 p hp).2.2
    have h₁ := (mem_enumerateFrom v 0 p hp).2.1
    have hpv : p.2 ∈ v := by
      rw [← h₃]
      exact getD_mem_of_lt _ _ (by omega)
    exact hn p.2 hpv
  have hwrap := wrapAll_of_no_nan (enumerateFrom 0 v) hno
  set pairs₀ := (enumerateFrom 0 v).map (fun p => (p.1, p.2.toRat)) with hpairs₀
  have hlen₀ : pairs₀.length = v.length := by
    simp [hpairs₀, enumerateFrom_length]
  have hk₀ : k ≤ pairs₀.length := by omega
  obtain ⟨pairs, rem, hpop, hplen, hperm, hpw, hsep⟩ := popK_spec k pairs₀ hk₀
  -- facts about members of pairs₀
  have hmem₀ : ∀ a ∈ pairs₀, a.1 < v.length ∧ a.2 = (v.getD a.1 .nan).toRat := by
    intro a ha
    obtain ⟨p, hp, hpa⟩ := List.mem_map.1 ha
    obtain ⟨h₁, h₂, h₃⟩ := mem_enumerateFrom v 0 p hp
    subst hpa
    refine ⟨by omega, ?_⟩
    simp only
    rw [show p.1 - 0 = p.1 from by omega] at h₃
    rw [h₃]
  have hmem₀r : ∀ j, j < v.length → (j, (v.getD j .nan).toRat) ∈ pairs₀ := by
    intro j hj
    have hm := enumerateFrom_mem_of_lt v 0 j hj
    rw [show (0 : Nat) + j = j from by omega] at hm
    exact List.mem_map.2 ⟨(j, v.getD j .nan), hm, rfl⟩
  have hpairsm : ∀ a ∈ pairs, a ∈ pairs₀ := by
    intro a ha
    exact hperm.mem_iff.2 (List.mem_append_left _ ha)
  refine ⟨pairs.map Prod.fst, ?_, ?_, ?_, ?_, ?_, ?_⟩
  · simp only [topkFloat]
    rw [if_neg (by omega)]
    rw [hwrap]
    simp only [← hpairs₀, hpop, Option.map_some]
    rfl
  · simp [hplen]
  · have hnd₀ : (pairs₀.map Prod.fst).Nodup := by
      have : pairs₀.map Prod.fst = (enumerateFrom 0 v).map Prod.fst := by
        simp [hpairs₀, List.map_map]
      rw [this]
      exact enumerateFrom_fst_nodup v 0
    have hndp : ((pairs ++ rem).map Prod.fst).Nodup := ((hperm.map Prod.fst).nodup_iff).1 hnd₀
    rw [List.map_append] at hndp
    exact hndp.of_append_left
  · intro i hi
    obtain ⟨a, ha, hai⟩ := List.mem_map.1 hi
    subst hai
    exact (hmem₀ a (hpairsm a ha)).1
  · exact pairwise_transfer (fun i => (v.getD i .nan).toRat) pairs
      (fun a ha => (hmem₀ a (hpairsm a ha)).2) hpw
  · intro i hi j hj hnotin
    obtain ⟨a, ha, hai⟩ := List.mem_map.1 hi
    subst hai
    have hjmem : (j, (v.getD j .nan).toRat) ∈ pairs ++ rem :=
      hperm.mem_iff.1 (hmem₀r j hj)
    rcases List.mem_append.1 hjmem with hjp | hjr
    · exact absurd (List.mem_map.2 ⟨_, hjp, rfl⟩) hnotin
    · have hle := hsep a ha (j, (v.getD j .nan).toRat) hjr
      rw [(hmem₀ a (hpairsm a ha)).2] at hle
      exact hle

/-- The float `top_k` aborts (models the `NoNaN::new(..).unwrap()` panic)
whenever `k` passes the bounds check but the vector holds a NaN. -/
theorem topkFloat_nan (v : List FloatVal) (k : Nat)
    (hk : k ≤ v.length) (x : FloatVal) (hx : x ∈ v) (hnan : x.is_nan = true) :
    topkFloat v k = none := by
  obtain ⟨p, hp, hpx⟩ := mem_snd_enumerateFrom v 0 x hx
  have hwrap : wrapAll (enumerateFrom 0 v) = none :=
    wrapAll_of_nan _ p hp (by rw [hpx]; exact hnan)
  simp only [topkFloat]
  rw [if_neg (by omega), hwrap]

/-- The float `top_k` rejects `k` beyond the vector length with the
`topk_incorrect_k` error before touching any element. -/
theorem topkFloat_bad_k (v : List FloatVal) (k : Nat) (hk : k > v.length) :
    topkFloat v k = some (.error (.topkIncorrectK k v.length)) := by
  simp only [topkFloat]
  rw [if_pos hk]

/-! ### Lemmas about the association-list model of the hash map -/

theorem hmGet_hmInsert_self : ∀ (m : List (String × List FloatVal)) (key : String)
    (v : List FloatVal), hmGet (hmInsert m key v) key = some v := by
  intro m key v
  induction m with
  | nil => simp [hmInsert, hmGet]
  | cons p rest ih =>
    by_cases h : p.1 = key
    · simp [hmInsert, h, hmGet]
    · simp only [hmInsert, h, if_false]
      simp only [hmGet, List.find?] at ih ⊢
      rw [show (decide (p.1 = key)) = false from by simp [h]]
      exact ih

theorem hmContains_of_hmGet : ∀ (m : List (String × List FloatVal)) (key : String)
    (v : List FloatVal), hmGet m key = some v → hmContains m key = true := by
  intro m key v
  induction m with
  | nil => intro h; simp [hmGet] at h
  | cons p rest ih =>
    intro h
    by_cases hp : p.1 = key
    · simp [hmContains, hp]
    · simp only [hmGet, List.find?] at h
      rw [show (decide (p.1 = key)) = false from by simp [hp]] at h
      simp only [hmContains, List.any_cons]
      rw [show (decide (p.1 = key)) = false from by simp [hp]]
      simp only [Bool.false_or]
      exact ih h

theorem hmContains_hmInsert_self (m : List (String × List FloatVal)) (key : String)
    (v : List FloatVal) : hmContains (hmInsert m key v) key = true :=
  hmContains_of_hmGet _ _ _ (hmGet_hmInsert_self m key v)

theorem hmInsert_length_of_contains : ∀ (m : List (String × List FloatVal)) (key : String)
    (v : List FloatVal), hmContains m key = true →
    (hmInsert m key v).length = m.length := by
  intro m key v
  induction m with
  | nil => intro h; simp [hmContains] at h
  | cons p rest ih =>
    intro h
    by_cases hp : p.1 = key
    · simp [hmInsert, hp]
    · simp only [hmContains, List.any_cons] at h
      rw [show (decide (p.1 = key)) = false from by simp [hp]] at h
      simp only [Bool.false_or] at h
      simp [hmInsert, hp, ih h]

/-! ### Lemmas about the bulk-load loop -/

/-- A line the bulk-load loop accepts: nonblank after trimming, every
score token parses, and the parsed-score count equals `num_classes`. -/
def goodLine (num_classes : Nat) (line : String) : Prop :=
  (strTrim line).isEmpty = false ∧
  ∃ scores, ((splitComma (strTrim line)).drop 1).mapM fastFloatParse = some scores ∧
    scores.length = num_classes

theorem fromCsvGo_head_blank (f : String) (n : Nat) (l : String) (rest : List String)
    (i : Nat) (data : List (String × List FloatVal)) (h : (strTrim l).isEmpty = true) :
    fromCsvGo f n (l :: rest) i data = some (.error (.emptyLine i f)) := by
  simp [fromCsvGo, h]

theorem fromCsvGo_head_count (f : String) (n : Nat) (l : String) (rest : List String)
    (i : Nat) (data : List (String × List FloatVal)) (scores : List ℚ)
    (h₁ : (strTrim l).isEmpty = false)
    (h₂ : ((splitComma (strTrim l)).drop 1).mapM fastFloatParse = some scores)
    (h₃ : scores.length ≠ n) :
    fromCsvGo f n (l :: rest) i data = some (.error (.wrongClassCount i f scores.length n)) := by
  simp only [fromCsvGo, h₂]
  simp [h₁, h₃]

theorem fromCsvGo_head_panic (f : String) (n : Nat) (l : String) (rest : List String)
    (i : Nat) (data : List (String × List FloatVal))
    (h₁ : (strTrim l).isEmpty = false)
    (h₂ : ((splitComma (strTrim l)).drop 1).mapM fastFloatParse = none) :
    fromCsvGo f n (l :: rest) i data = none := by
  simp only [fromCsvGo, h₂]
  simp [h₁]

theorem fromCsvGo_head_good (f : String) (n : Nat) (l : String) (rest : List String)
    (i : Nat) (data : List (String × List FloatVal)) (scores : List ℚ)
    (h₁ : (strTrim l).isEmpty = false)
    (h₂ : ((splitComma (strTrim l)).drop 1).mapM fastFloatParse = some scores)
    (h₃ : scores.length = n) :
    fromCsvGo f n (l :: rest) i data =
      fromCsvGo f n rest (i + 1)
        (hmInsert data ((splitComma (strTrim l)).headD "") (scores.map FloatVal.fin)) := by
  simp only [fromCsvGo, h₂]
  simp [h₁, h₃]

/-- A successful bulk load implies every input line was accepted. -/
theorem fromCsvGo_ok_good (f : String) (n : Nat) : ∀ (lines : List String) (i : Nat)
    (data d : List (String × List FloatVal)),
    fromCsvGo f n lines i data = some (.ok d) →
    ∀ (j : Nat) (line : String), lines.get? j = some line → goodLine n line := by
  intro lines
  induction lines with
  | nil =>
    intro i data d h j line hj
    simp at hj
  | cons l rest ih =>
    intro i data d h j line hj
    by_cases h₁ : (strTrim l).isEmpty
    · rw [fromCsvGo_head_blank f n l rest i data h₁] at h
      simp at h
    · have h₁f : (strTrim l).isEmpty = false := by simpa using h₁
      cases h₂ : ((splitComma (strTrim l)).drop 1).mapM fastFloatParse with
      | none =>
        rw [fromCsvGo_head_panic f n l rest i data h₁f h₂] at h
        simp at h
      | some scores =>
        by_cases h₃ : scores.length = n
        · rw [fromCsvGo_head_good f n l rest i data scores h₁f h₂ h₃] at h
          cases j with
          | zero =>
            have hl : l = line := by simpa using hj
            subst hl
            exact ⟨h₁f, scores, h₂, h₃⟩
          | succ j =>
            exact ih (i + 1) _ d h j line (by simpa using hj)
        · rw [fromCsvGo_head_count f n l rest i data scores h₁f h₂ h₃] at h
          simp at h

/-- When every line before index `j` is accepted and line `j` is nonblank
with parseable tokens but a wrong score count, the load stops at line `j`
with the wrong-class-count error carrying `j`'s running index and the
filename. -/
theorem fromCsvGo_err_count (f : String) (n : Nat) : ∀ (lines : List String) (j i : Nat)
    (data : List (String × List FloatVal)) (line : String) (scores : List ℚ),
    lines.get? j = some line →
    (strTrim line).isEmpty = false →
    ((splitComma (strTrim line)).drop 1).mapM fastFloatParse = some scores →
    scores.length ≠ n →
    (∀ (j₀ : Nat) (line₀ : String), j₀ < j → lines.get? j₀ = some line₀ → goodLine n line₀) →
    fromCsvGo f n lines i data = some (.error (.wrongClassCount (i + j) f scores.length n)) := by
  intro lines
  induction lines with
  | nil =>
    intro j i data line scores hj
    simp at hj
  | cons l rest ih =>
    intro j i data line scores hj h₁ h₂ h₃ hgood
    cases j with
    | zero =>
      have hl : l = line := by simpa using hj
      subst hl
      simpa using fromCsvGo_head_count f n l rest i data scores h₁ h₂ h₃
    | succ j =>
      have hheadgood : goodLine n l := hgood 0 l (by omega) (by simp)
      obtain ⟨hg₁, scores₀, hg₂, hg₃⟩ := hheadgood
      rw [fromCsvGo_head_good f n l rest i data scores₀ hg₁ hg₂ hg₃]
      have harith : i + 1 + j = i + (j + 1) := by omega
      rw [← harith]
      exact ih j (i + 1) _ line scores (by simpa using hj) h₁ h₂ h₃
        (fun j₀ line₀ hlt hj₀ => hgood (j₀ + 1) line₀ (by omega) (by simpa using hj₀))

/-! ### Lemmas about the one-hot encoder -/

theorem set_getD : ∀ (l : List Bool) (c j : Nat), c < l.length →
    (l.set c true).getD j false = (decide (j = c) || l.getD j false) := by
  intro l
  induction l with
  | nil => intro c j hc; simp at hc
  | cons x rest ih =>
    intro c j hc
    cases c with
    | zero =>
      cases j with
      | zero => simp [List.getD]
      | succ j => simp [List.getD]
    | succ c =>
      cases j with
      | zero => simp [List.getD]
      | succ j =>
        have hc₀ : c < rest.length := by simpa using hc
        simpa [List.getD] using ih c j hc₀

theorem replicate_getD : ∀ (n j : Nat), (List.replicate n false).getD j false = false := by
  intro n
  induction n with
  | zero => intro j; simp [List.getD]
  | succ n ih =>
    intro j
    cases j with
    | zero => simp [List.replicate, List.getD]
    | succ j => simp [List.replicate, List.getD]

theorem convertManyGo_spec (n : Nat) : ∀ (cats : List Nat) (acc : List Bool),
    acc.length = n → (∀ c ∈ cats, c < n) →
    ∃ out, convertManyGo n cats acc = some out ∧ out.length = n ∧
      ∀ j, out.getD j false = (acc.getD j false || decide (j ∈ cats)) := by
  intro cats
  induction cats with
  | nil =>
    intro acc hlen _
    exact ⟨acc, rfl, hlen, fun j => by simp⟩
  | cons c rest ih =>
    intro acc hlen hmem
    have hc : c < n := hmem c (List.mem_cons_self _ _)
    have hstep : convertManyGo n (c :: rest) acc = convertManyGo n rest (acc.set c true) := by
      simp [convertManyGo, Nat.not_le.2 hc]
    obtain ⟨out, hout, holen, hoget⟩ := ih (acc.set c true) (by simpa using hlen)
      (fun x hx => hmem x (List.mem_cons_of_mem _ hx))
    refine ⟨out, by rw [hstep]; exact hout, holen, ?_⟩
    intro j
    rw [hoget j, set_getD acc c j (by omega)]
    by_cases hj : j = c
    · simp [hj]
    · simp [hj, List.mem_cons]

theorem convertManyGo_none (n : Nat) : ∀ (cats : List Nat) (acc : List Bool) (c : Nat),
    c ∈ cats → c ≥ n → convertManyGo n cats acc = none := by
  intro cats
  induction cats with
  | nil => intro acc c hc; simp at hc
  | cons c₀ rest ih =>
    intro acc c hc hcn
    by_cases h₀ : c₀ ≥ n
    · simp [convertManyGo, h₀]
    · rcases List.mem_cons.1 hc with h | h
      · subst h; omega
      · simp only [convertManyGo, h₀, if_false]
        exact ih _ c h hcn

/-! ### Store-level glue -/

theorem confidence_for_image_of_hmGet (co : ClassificationOutput) (key : String)
    (v : List FloatVal) (hget : hmGet co.data key = some v) :
    co.confidence_for_image key = .ok v := by
  have hpres : co.image_is_present key = true := hmContains_of_hmGet _ _ _ hget
  simp [ClassificationOutput.confidence_for_image, hpres, hget]

theorem topk_for_image_of_hmGet (co : ClassificationOutput) (key : String)
    (v : List FloatVal) (k : Nat) (hget : hmGet co.data key = some v) :
    co.topk_for_image key k =
      match topkFloat v k with
      | none => none
      | some (.error _) => none
      | some (.ok idxs) => some (.ok idxs) := by
  have hpres : co.image_is_present key = true := hmContains_of_hmGet _ _ _ hget
  have hconf := confidence_for_image_of_hmGet co key v hget
  simp [ClassificationOutput.topk_for_image, hpres, hconf]

/-! ### The claims -/

/-- C1 (amended): for a stored, NaN-free confidence vector of length
`num_classes` and `k ≤ num_classes`, `topk_for_image` returns exactly `k`
distinct indices, each below `num_classes`, ordered descending by the
value they index, with every returned index's value `≥` every non-returned
index's value.  For `k > num_classes`, `top_k` itself returns the
`topk_incorrect_k` (InvalidInput) error, but `topk_for_image` unwraps that
error and panics instead of propagating it; a stored vector containing a
NaN likewise makes `topk_for_image` panic when `k` is within bounds. -/
theorem claim1_topk_spec (co : ClassificationOutput) (key : String)
    (v : List FloatVal) (k : Nat)
    (hget : hmGet co.data key = some v)
    (hlen : v.length = co.num_classes) :
    ((∀ x ∈ v, x.is_nan = false) → k ≤ co.num_classes →
      ∃ out, co.topk_for_image key k = some (.ok out) ∧
        out.length = k ∧ out.Nodup ∧ (∀ i ∈ out, i < co.num_classes) ∧
        out.Pairwise (fun i j => (v.getD j .nan).toRat ≤ (v.getD i .nan).toRat) ∧
        ∀ i ∈ out, ∀ j, j < co.num_classes → j ∉ out →
          (v.getD j .nan).toRat ≤ (v.getD i .nan).toRat) ∧
    ((∀ x ∈ v, x.is_nan = false) → k > co.num_classes →
      topkFloat v k = some (.error (.topkIncorrectK k co.num_classes)) ∧
      co.topk_for_image key k = none) ∧
    ((∃ x ∈ v, x.is_nan = true) → k ≤ co.num_classes →
      co.topk_for_image key k = none) := by
  refine ⟨?_, ?_, ?_⟩
  · intro hnan hk
    obtain ⟨out, hout, hl, hnd, hmem, hpw, hdom⟩ :=
      topkFloat_spec v k hnan (by omega)
    refine ⟨out, ?_, hl, hnd, by rw [← hlen]; exact hmem, hpw, by rw [← hlen]; exact hdom⟩
    rw [topk_for_image_of_hmGet co key v k hget, hout]
  · intro _ hk
    have hbad := topkFloat_bad_k v k (by omega)
    rw [hlen] at hbad
    refine ⟨hbad, ?_⟩
    rw [topk_for_image_of_hmGet co key v k hget, hbad]
  · intro hnan hk
    obtain ⟨x, hx, hxnan⟩ := hnan
    have hnone := topkFloat_nan v k (by omega) x hx hxnan
    rw [topk_for_image_of_hmGet co key v k hget, hnone]

/-- C1, witness: on the store holding `[0, 1]` for key `a` with two
classes, `topk_for_image` at `k = 1` succeeds with one in-range index, and
at `k = 3` the call aborts while `top_k` itself reports the
`topk_incorrect_k` error. -/
theorem claim1_witness :
    (∃ out, ClassificationOutput.topk_for_image
        { num_classes := 2, data := [("a", [FloatVal.fin 0, FloatVal.fin 1])] } "a" 1 =
        some (.ok out) ∧ out.length = 1 ∧ out.Nodup ∧ ∀ i ∈ out, i < 2) ∧
    topkFloat [FloatVal.fin 0, FloatVal.fin 1] 3 =
      some (.error (.topkIncorrectK 3 2)) ∧
    ClassificationOutput.topk_for_image
      { num_classes := 2, data := [("a", [FloatVal.fin 0, FloatVal.fin 1])] } "a" 3 = none := by
  refine ⟨?_, ?_⟩
  · obtain ⟨out, hout, hl, hnd, hmem, _, _⟩ :=
      (claim1_topk_spec
        { num_classes := 2, data := [("a", [FloatVal.fin 0, FloatVal.fin 1])] } "a"
        [FloatVal.fin 0, FloatVal.fin 1] 1 rfl rfl).1 (by decide) (by decide)
    exact ⟨out, hout, hl, hnd, hmem⟩
  · exact (claim1_topk_spec
      { num_classes := 2, data := [("a", [FloatVal.fin 0, FloatVal.fin 1])] } "a"
      [FloatVal.fin 0, FloatVal.fin 1] 3 rfl rfl).2.1 (by decide) (by decide)

/-- C1, counterexample to the claim as stated: a stored vector may contain
NaN, in which case `topk_for_image` aborts instead of returning `k`
indices; and for `k > NumClasses` the store-level call aborts instead of
failing with the InvalidArgument error. -/
theorem claim1_counterexample :
    ClassificationOutput.topk_for_image
      { num_classes := 1, data := [("a", [FloatVal.nan])] } "a" 1 = none ∧
    ClassificationOutput.topk_for_image
      { num_classes := 2, data := [("a", [FloatVal.fin 0, FloatVal.fin 1])] } "a" 3 = none ∧
    ClassificationOutput.topk_for_image
      { num_classes := 2, data := [("a", [FloatVal.fin 0, FloatVal.fin 1])] } "a" 3 ≠
      some (.error (.topkIncorrectK 3 2)) := by
  refine ⟨rfl, rfl, ?_⟩
  decide

/-- C2: after a successful `add` of a vector whose length matches
`num_classes`, `confidence_for_image` returns that exact vector and
`image_is_present` is true. -/
theorem claim2_add_get (co : ClassificationOutput) (key : String) (v : List FloatVal)
    (hlen : v.length = co.num_classes) :
    (co.add key v).2 = .ok () ∧
    ((co.add key v).1).confidence_for_image key = .ok v ∧
    ((co.add key v).1).image_is_present key = true := by
  have hadd1 : (co.add key v).1 = { co with data := hmInsert co.data key v } := by
    simp [ClassificationOutput.add, hlen]
  have hget := hmGet_hmInsert_self co.data key v
  have hpres : hmContains (hmInsert co.data key v) key = true :=
    hmContains_hmInsert_self _ _ _
  refine ⟨by simp [ClassificationOutput.add, hlen], ?_, ?_⟩
  · rw [hadd1]
    exact confidence_for_image_of_hmGet _ key v hget
  · rw [hadd1]
    simpa [ClassificationOutput.image_is_present] using hpres

/-- C2, witness at a concrete store. -/
theorem claim2_witness :
    (ClassificationOutput.add (ClassificationOutput.new 1) "img" [FloatVal.fin 1]).2 =
      .ok () ∧
    ((ClassificationOutput.add (ClassificationOutput.new 1) "img"
        [FloatVal.fin 1]).1).confidence_for_image "img" = .ok [FloatVal.fin 1] ∧
    ((ClassificationOutput.add (ClassificationOutput.new 1) "img"
        [FloatVal.fin 1]).1).image_is_present "img" = true :=
  claim2_add_get (ClassificationOutput.new 1) "img" [FloatVal.fin 1] rfl

/-- C3: with a wrong-length vector, `add` does fail and does leave the
store untouched, but the error it returns is
`errors::image_not_present_error` — kind NotFound with the message
`The image img was not found.` — the constructor `errors.rs` documents for
absent-key lookups, not a dimension-mismatch error. -/
theorem claim3_add_wrong_length :
    ClassificationOutput.add { num_classes := 2, data := [] } "img" [FloatVal.fin 1] =
      ({ num_classes := 2, data := [] }, .error (.imageNotPresent "img")) ∧
    ClassificationOutput.add
        { num_classes := 2, data := [("keep", [FloatVal.fin 1, FloatVal.fin 2])] }
        "img" [FloatVal.fin 3] =
      ({ num_classes := 2, data := [("keep", [FloatVal.fin 1, FloatVal.fin 2])] },
        .error (.imageNotPresent "img")) ∧
    (Err.imageNotPresent "img").kind = ErrKind.notFound ∧
    (Err.imageNotPresent "img").message = "The image img was not found." := by
  refine ⟨rfl, rfl, rfl, rfl⟩

/-- C7: re-adding an existing key with a second valid vector succeeds,
overwrites the stored vector (last-write-wins), and leaves the key count
exactly what it was after the first `add`. -/
theorem claim7_overwrite (co : ClassificationOutput) (key : String)
    (v₁ v₂ : List FloatVal)
    (h₁ : v₁.length = co.num_classes) (h₂ : v₂.length = co.num_classes) :
    (co.add key v₁).2 = .ok () ∧
    ((co.add key v₁).1.add key v₂).2 = .ok () ∧
    (((co.add key v₁).1.add key v₂).1).confidence_for_image key = .ok v₂ ∧
    (((co.add key v₁).1.add key v₂).1).num_images = ((co.add key v₁).1).num_images := by
  have hadd1 : (co.add key v₁).1 = { co with data := hmInsert co.data key v₁ } := by
    simp [ClassificationOutput.add, h₁]
  have hnc : ((co.add key v₁).1).num_classes = co.num_classes := by
    rw [hadd1]
  have hadd2 : ((co.add key v₁).1.add key v₂).1 =
      { co with data := hmInsert (hmInsert co.data key v₁) key v₂ } := by
    rw [hadd1]
    simp [ClassificationOutput.add, h₂]
  refine ⟨by simp [ClassificationOutput.add, h₁], ?_, ?_, ?_⟩
  · rw [hadd1]
    simp [ClassificationOutput.add, h₂]
  · rw [hadd2]
    exact confidence_for_image_of_hmGet _ key v₂ (hmGet_hmInsert_self _ key v₂)
  · rw [hadd2, hadd1]
    simp only [ClassificationOutput.num_images]
    exact hmInsert_length_of_contains _ key v₂ (hmContains_hmInsert_self _ key v₁)

/-- C7, witness at a concrete store. -/
theorem claim7_witness :
    ((ClassificationOutput.add (ClassificationOutput.new 1) "img"
        [FloatVal.fin 1]).1.add "img" [FloatVal.fin 2]).2 = .ok () ∧
    (((ClassificationOutput.add (ClassificationOutput.new 1) "img"
        [FloatVal.fin 1]).1.add "img" [FloatVal.fin 2]).1).confidence_for_image "img" =
      .ok [FloatVal.fin 2] ∧
    (((ClassificationOutput.add (ClassificationOutput.new 1) "img"
        [FloatVal.fin 1]).1.add "img" [FloatVal.fin 2]).1).num_images =
      ((ClassificationOutput.add (ClassificationOutput.new 1) "img"
        [FloatVal.fin 1]).1).num_images := by
  obtain ⟨_, h₂, h₃, h₄⟩ :=
    claim7_overwrite (ClassificationOutput.new 1) "img" [FloatVal.fin 1] [FloatVal.fin 2]
      rfl rfl
  exact ⟨h₂, h₃, h₄⟩

/-- C4: `NoNaN::new` returns `None` exactly on NaN and otherwise wraps the
given value unchanged. -/
theorem claim4_nonan_new (v : FloatVal) (q : ℚ) :
    (NoNaN.new v = none ↔ v = FloatVal.nan) ∧
    NoNaN.new (FloatVal.fin q) = some ⟨q⟩ ∧
    (NoNaN.new (FloatVal.fin q)).map NoNaN.value = some q := by
  refine ⟨?_, rfl, rfl⟩
  cases v <;> simp [NoNaN.new, FloatVal.is_nan]

/-- C5: with `k` within bounds, the float `top_k` returns `Ok` on every
NaN-free vector, and aborts the process on any vector holding a NaN (the
abort branch is unreachable under the no-NaN precondition). -/
theorem claim5_topk_nan_safety (v : List FloatVal) (k : Nat) (hk : k ≤ v.length) :
    ((∀ x ∈ v, x.is_nan = false) → ∃ out, topkFloat v k = some (.ok out)) ∧
    ∀ x ∈ v, x.is_nan = true → topkFloat v k = none := by
  constructor
  · intro hn
    obtain ⟨out, hout, _⟩ := topkFloat_spec v k hn hk
    exact ⟨out, hout⟩
  · intro x hx hnan
    exact topkFloat_nan v k hk x hx hnan

/-- C5, witness: a NaN-free vector at `k = 1` succeeds; a NaN vector at
`k = 1` aborts. -/
theorem claim5_witness :
    (∃ out, topkFloat [FloatVal.fin 1, FloatVal.fin 2] 1 = some (.ok out)) ∧
    topkFloat [FloatVal.nan] 1 = none := by
  constructor
  · exact (claim5_topk_nan_safety [FloatVal.fin 1, FloatVal.fin 2] 1 (by decide)).1
      (by decide)
  · exact (claim5_topk_nan_safety [FloatVal.nan] 1 (by decide)).2 FloatVal.nan
      (List.mem_singleton.2 rfl) rfl

/-- C6: the one-hot encoder marks exactly the given index (single form) or
exactly the listed indices (list form, duplicates harmless), with a fatal
failure on any index not below the class count. -/
theorem claim6_onehot (i n c : Nat) (cats : List Nat) :
    (i < n → ∃ out, convertOne i n = some out ∧ out.length = n ∧
      ∀ j, out.getD j false = decide (j = i)) ∧
    (i ≥ n → convertOne i n = none) ∧
    ((∀ x ∈ cats, x < n) → ∃ out, convertMany cats n = some out ∧ out.length = n ∧
      ∀ j, out.getD j false = decide (j ∈ cats)) ∧
    convertMany (c :: c :: cats) n = convertMany (c :: cats) n ∧
    (c ∈ cats → c ≥ n → convertMany cats n = none) := by
  refine ⟨?_, ?_, ?_, ?_, ?_⟩
  · intro hi
    refine ⟨(List.replicate n false).set i true, ?_, by simp, ?_⟩
    · simp [convertOne, Nat.not_le.2 hi]
    · intro j
      rw [set_getD _ i j (by simpa using hi), replicate_getD]
      simp
  · intro hi
    simp [convertOne, hi]
  · intro hmem
    obtain ⟨out, hout, hlen, hget⟩ :=
      convertManyGo_spec n cats (List.replicate n false) (by simp) hmem
    refine ⟨out, hout, hlen, ?_⟩
    intro j
    rw [hget j, replicate_getD]
    simp
  · simp only [convertMany, convertManyGo]
    by_cases hc : c ≥ n
    · simp [hc]
    · simp [hc, List.set_set]
  · exact convertManyGo_none n cats _ c

/-- C6, witness: the spec's concrete examples, a duplicated index, and an
out-of-range index. -/
theorem claim6_witness :
    (∃ out, convertOne 2 4 = some out ∧ out.length = 4) ∧
    convertOne 5 4 = none ∧
    (∃ out, convertMany [3, 0] 5 = some out ∧ out.length = 5) ∧
    convertMany [3, 3, 0] 5 = convertMany [3, 0] 5 ∧
    convertMany [7, 2] 2 = none := by
  refine ⟨?_, ?_, ?_, ?_, ?_⟩
  · obtain ⟨out, h₁, h₂, _⟩ := (claim6_onehot 2 4 0 []).1 (by omega)
    exact ⟨out, h₁, h₂⟩
  · exact (claim6_onehot 5 4 0 []).2.1 (by omega)
  · obtain ⟨out, h₁, h₂, _⟩ := (claim6_onehot 0 5 0 [3, 0]).2.2.1 (by decide)
    exact ⟨out, h₁, h₂⟩
  · exact (claim6_onehot 0 5 3 [0]).2.2.2.1
  · exact (claim6_onehot 0 2 7 [7, 2]).2.2.2.2 (by decide) (by omega)

/-- Whether a bulk load produced a store. -/
def okStore : Option (Except Err ClassificationOutput) → Bool
  | some (.ok _) => true
  | _ => false

theorem okStore_iff (x : Option (Except Err ClassificationOutput)) :
    okStore x = true ↔ ∃ co, x = some (.ok co) := by
  cases x with
  | none => simp [okStore]
  | some r =>
    cases r with
    | error e => simp [okStore]
    | ok co => simp [okStore]

/-- C8 (amended): a successful bulk load implies every line was nonblank
with exactly `num_classes` *parseable* score tokens (so a blank line, an
unparseable line, or a wrong-count line makes the load fail and no store
is produced); a line whose tokens all parse but whose count is wrong (all
earlier lines accepted) fails with the wrong-class-count (InvalidData)
error naming that line's 0-based number and the source identifier; a line
with an unparseable score token makes the load abort by panic instead of
returning an error. -/
theorem claim8_bulk_load (lines : List String) (f : String) (n : Nat) :
    (∀ d, ClassificationOutput.from_csv_file lines f n = some (.ok d) →
      ∀ (j : Nat) (line : String), lines.get? j = some line → goodLine n line) ∧
    (∀ (j : Nat) (line : String) (scores : List ℚ),
      lines.get? j = some line →
      (strTrim line).isEmpty = false →
      ((splitComma (strTrim line)).drop 1).mapM fastFloatParse = some scores →
      scores.length ≠ n →
      (∀ (j₀ : Nat) (line₀ : String), j₀ < j → lines.get? j₀ = some line₀ →
        goodLine n line₀) →
      ClassificationOutput.from_csv_file lines f n =
        some (.error (.wrongClassCount j f scores.length n))) ∧
    ((∃ j line, lines.get? j = some line ∧ (strTrim line).isEmpty = true) →
      ∀ d, ClassificationOutput.from_csv_file lines f n ≠ some (.ok d)) := by
  have hok : ∀ d, ClassificationOutput.from_csv_file lines f n = some (.ok d) →
      ∀ (j : Nat) (line : String), lines.get? j = some line → goodLine n line := by
    intro d h j line hj
    unfold ClassificationOutput.from_csv_file at h
    cases hgo : fromCsvGo f n lines 0 [] with
    | none => rw [hgo] at h; simp at h
    | some r =>
      rw [hgo] at h
      cases r with
      | error e => simp [Except.map] at h
      | ok d₀ => exact fromCsvGo_ok_good f n lines 0 [] d₀ hgo j line hj
  refine ⟨hok, ?_, ?_⟩
  · intro j line scores hj h₁ h₂ h₃ hgood
    have hgo := fromCsvGo_err_count f n lines j 0 [] line scores hj h₁ h₂ h₃ hgood
    rw [Nat.zero_add] at hgo
    unfold ClassificationOutput.from_csv_file
    rw [hgo]
    rfl
  · intro hblank d h
    obtain ⟨j, line, hj, hempty⟩ := hblank
    have hgood := hok d h j line hj
    rw [hgood.1] at hempty
    exact Bool.noConfusion hempty

/-- C8, witness: a line of two parseable tokens against one expected class
fails with the error naming line 0 and the filename, and a source holding
a blank line never yields a store. -/
theorem claim8_witness :
    ClassificationOutput.from_csv_file ["a,1,2"] "f.csv" 1 =
      some (.error (.wrongClassCount 0 "f.csv" 2 1)) ∧
    okStore (ClassificationOutput.from_csv_file ["a,1", ""] "f.csv" 1) = false := by
  constructor
  · obtain ⟨q₁, hq₁⟩ : ∃ q, fastFloatParse "1" = some q := Option.isSome_iff_exists.1 rfl
    obtain ⟨q₂, hq₂⟩ : ∃ q, fastFloatParse "2" = some q := Option.isSome_iff_exists.1 rfl
    have hmap : ((splitComma (strTrim "a,1,2")).drop 1).mapM fastFloatParse =
        some [q₁, q₂] := by
      show ["1", "2"].mapM fastFloatParse = some [q₁, q₂]
      simp [List.mapM.loop, hq₁, hq₂]
    have := (claim8_bulk_load ["a,1,2"] "f.csv" 1).2.1 0 "a,1,2" [q₁, q₂] rfl rfl hmap
      (by simp) (fun j₀ line₀ hlt => by omega)
    simpa using this
  · cases hx : ClassificationOutput.from_csv_file ["a,1", ""] "f.csv" 1 with
    | none => simp [okStore]
    | some r =>
      cases r with
      | error e => simp [okStore]
      | ok d =>
        have hgood := (claim8_bulk_load ["a,1", ""] "f.csv" 1).1 d hx 1 "" rfl
        exact absurd hgood.1 (by decide)

/-- C8, counterexample to the claim as stated: a line with the wrong
number of score tokens whose tokens do not parse aborts the load by panic
instead of failing with an error naming the line. -/
theorem claim8_counterexample :
    ClassificationOutput.from_csv_file ["img,x,y"] "f.csv" 5 = none ∧
    ClassificationOutput.from_csv_file ["img,x,y"] "f.csv" 5 ≠
      some (.error (.wrongClassCount 0 "f.csv" 2 5)) := by
  exact ⟨rfl, by decide⟩

/-- C9, counterexample to the claim as stated: score tokens are *not*
individually trimmed — a line whose score field carries a leading space
aborts the load (the parse `unwrap` panics) instead of loading like the
space-free line. -/
theorem claim9_counterexample :
    ClassificationOutput.from_csv_file ["img, 0.5"] "f.csv" 1 = none ∧
    okStore (ClassificationOutput.from_csv_file ["img,0.5"] "f.csv" 1) = true ∧
    ClassificationOutput.from_csv_file ["img, 0.5"] "f.csv" 1 ≠
      ClassificationOutput.from_csv_file ["img,0.5"] "f.csv" 1 := by
  refine ⟨rfl, rfl, ?_⟩
  intro h
  obtain ⟨co, hco⟩ := (okStore_iff (ClassificationOutput.from_csv_file
    ["img,0.5"] "f.csv" 1)).1 rfl
  rw [hco] at h
  exact Option.noConfusion h

/-- C9 (amended): only the whole line is trimmed before splitting; the
individual score tokens are not trimmed, and the strict external parser
rejects tokens with surrounding whitespace, so such a line aborts the
load, while whitespace at the ends of the whole line is harmless. -/
theorem claim9_amended (f : String) (n : Nat) :
    fastFloatParse " 0.5" = none ∧
    fastFloatParse "0.5 " = none ∧
    ClassificationOutput.from_csv_file ["img, 0.5"] f n = none ∧
    ∃ co, ClassificationOutput.from_csv_file ["  img,0.5  "] f 1 = some (.ok co) ∧
      co.num_classes = 1 ∧ co.image_is_present "img" = true := by
  refine ⟨rfl, rfl, ?_, ?_⟩
  · unfold ClassificationOutput.from_csv_file
    rw [fromCsvGo_head_panic f n "img, 0.5" [] 0 [] rfl rfl]
    rfl
  · obtain ⟨q, hq⟩ : ∃ q, fastFloatParse "0.5" = some q := Option.isSome_iff_exists.1 rfl
    have hmap : ((splitComma (strTrim "  img,0.5  ")).drop 1).mapM fastFloatParse =
        some [q] := by
      show ["0.5"].mapM fastFloatParse = some [q]
      simp [List.mapM.loop, hq]
    refine ⟨{ num_classes := 1, data := [("img", [FloatVal.fin q])] }, ?_, rfl, rfl⟩
    unfold ClassificationOutput.from_csv_file
    rw [fromCsvGo_head_good f 1 "  img,0.5  " [] 0 [] [q] rfl hmap rfl]
    rfl

/-- C10: bulk-load line numbers are 0-based — a malformed (blank, or
parseable with a wrong score count) first line is reported as line 0. -/
theorem claim10_zero_based (lines : List String) (f : String) (n : Nat) (line : String)
    (hhead : lines.head? = some line) :
    ((strTrim line).isEmpty = true →
      ClassificationOutput.from_csv_file lines f n = some (.error (.emptyLine 0 f))) ∧
    (∀ scores : List ℚ, (strTrim line).isEmpty = false →
      ((splitComma (strTrim line)).drop 1).mapM fastFloatParse = some scores →
      scores.length ≠ n →
      ClassificationOutput.from_csv_file lines f n =
        some (.error (.wrongClassCount 0 f scores.length n))) := by
  cases lines with
  | nil => simp at hhead
  | cons l rest =>
    have hl : l = line := by simpa using hhead
    subst hl
    constructor
    · intro hblank
      unfold ClassificationOutput.from_csv_file
      rw [fromCsvGo_head_blank f n l rest 0 [] hblank]
      rfl
    · intro scores h₁ h₂ h₃
      unfold ClassificationOutput.from_csv_file
      rw [fromCsvGo_head_count f n l rest 0 [] scores h₁ h₂ h₃]
      rfl

/-- C10, witness: a blank first line and a wrong-count first line are both
reported as line 0. -/
theorem claim10_witness :
    ClassificationOutput.from_csv_file [""] "f.csv" 1 =
      some (.error (.emptyLine 0 "f.csv")) ∧
    ClassificationOutput.from_csv_file ["a,1,2"] "f.csv" 1 =
      some (.error (.wrongClassCount 0 "f.csv" 2 1)) := by
  constructor
  · exact (claim10_zero_based [""] "f.csv" 1 "" rfl).1 rfl
  · obtain ⟨q₁, hq₁⟩ : ∃ q, fastFloatParse "1" = some q := Option.isSome_iff_exists.1 rfl
    obtain ⟨q₂, hq₂⟩ : ∃ q, fastFloatParse "2" = some q := Option.isSome_iff_exists.1 rfl
    have hmap : ((splitComma (strTrim "a,1,2")).drop 1).mapM fastFloatParse =
        some [q₁, q₂] := by
      show ["1", "2"].mapM fastFloatParse = some [q₁, q₂]
      simp [List.mapM.loop, hq₁, hq₂]
    have := (claim10_zero_based ["a,1,2"] "f.csv" 1 "a,1,2" rfl).2 [q₁, q₂] rfl hmap
      (by simp)
    simpa using this

end Bagheera
